import Mathlib

/-!
Verification development for the `graph_maker_py` repository
(`graph_maker_example.py`), a glue script that builds `Document`s from text
chunks, extracts graph edges via `GraphMaker.from_documents`, and persists
them with `Neo4jGraphModel`.

The script itself (summary generation, document construction) is embedded
directly from the source. `GraphMaker.from_documents` and `Neo4jGraphModel`
belong to the external `knowledge_graph_maker` library whose code is not in
the repository; those operations are modelled from the specification's
contract (sections 4.3 and 4.4), with doc comments marking each such
definition.
-/

namespace GraphMakerPy

/-- Metadata is a Python dict of string keys to string values, modelled as an
association list. -/
abbrev Metadata := List (String × String)

/-- A label spec in the ontology: either a bare name, or a name paired with
guidance text (the one-entry dict form used in the source). -/
inductive LabelSpec where
  | plain (name : String)
  | described (name : String) (guidance : String)
deriving DecidableEq

/-- The label name of a spec, ignoring guidance text. -/
def LabelSpec.name : LabelSpec → String
  | .plain n => n
  | .described n _ => n

/-- Ontology: allowed node labels and relationship vocabulary
(`Ontology(labels=..., relationships=...)` in the source). -/
structure Ontology where
  labels : List LabelSpec
  relationships : List String
deriving DecidableEq

/-- The declared label-name set of an ontology. -/
def Ontology.labelNames (o : Ontology) : List String :=
  o.labels.map LabelSpec.name

/-- Document: text plus metadata (`Document(text=..., metadata=...)`). -/
structure Document where
  text : String
  metadata : Metadata
deriving DecidableEq

/-- A graph node: name and ontology label. -/
structure Node where
  name : String
  label : String
deriving DecidableEq

/-- An extracted edge: two nodes, a relationship, the originating document's
metadata, and a 0-based order within the document. -/
structure Edge where
  node_1 : Node
  node_2 : Node
  relationship : String
  metadata : Metadata
  order : Nat
deriving DecidableEq

/-- Outcome of one call to the language-model client's `generate`
operation: either the returned text, or a raised exception (of any kind,
identified by a message). -/
inductive GenResult where
  | ok (response : String)
  | error (e : String)
deriving DecidableEq

/-- `generate_summary` from the source script: calls `llm.generate` on the
text; a bare `except:` catches any raised exception and substitutes the
empty string; the `finally: return summary` returns whatever was assigned.
The client is passed as a function from the input text to the call's
outcome. -/
def generate_summary (llm : String → GenResult) (text : String) : String :=
  match llm text with
  | .ok summary => summary
  | .error _ => ""

/-- The document-construction loop of the source script: `current_time` is
captured once, then each text chunk is mapped to a `Document` whose metadata
holds a per-text summary and the shared `generated_at` timestamp. -/
def mkDocs (summarize : String → String) (current_time : String)
    (texts : List String) : List Document :=
  texts.map fun t =>
    { text := t
      metadata := [("summary", summarize t), ("generated_at", current_time)] }

/-- A raw node as named by the model in a triple, before label repair. -/
structure RawNode where
  name : String
  label : String
deriving DecidableEq

/-- A (node_1, relationship, node_2) triple as parsed from the model's
structured response. -/
structure Triple where
  node_1 : RawNode
  relationship : String
  node_2 : RawNode
deriving DecidableEq

/-- Modelled from the spec: the observable outcome of the per-document
model call plus defensive parse inside `GraphMaker.from_documents` (library
code not in the repository) — a transport error from the client, a parse
failure of the response, or a parsed list of triples. -/
inductive ExtractOutcome where
  | transportError
  | parseError
  | triples (ts : List Triple)
deriving DecidableEq

/-- Modelled from the spec: the label repair policy of
`GraphMaker.from_documents` (library code not in the repository) — a label
inside the ontology is kept; one outside is mapped to "Miscellaneous" when
that label is declared, else the triple is dropped (signalled by `none`). -/
def repairLabel (onto : Ontology) (lbl : String) : Option String :=
  if lbl ∈ onto.labelNames then some lbl
  else if "Miscellaneous" ∈ onto.labelNames then some "Miscellaneous"
  else none

/-- Modelled from the spec: node construction with label repair; `none`
means the containing triple is dropped. -/
def repairNode (onto : Ontology) (rn : RawNode) : Option Node :=
  (repairLabel onto rn.label).map fun l => { name := rn.name, label := l }

/-- Modelled from the spec: building the edge for the triple at 0-based
position `i` of a document's triple list, attaching the document's
metadata; `none` when either node's label cannot be repaired. -/
def mkEdge (onto : Ontology) (meta : Metadata) (i : Nat) (t : Triple) :
    Option Edge :=
  match repairNode onto t.node_1, repairNode onto t.node_2 with
  | some n1, some n2 =>
      some { node_1 := n1, node_2 := n2, relationship := t.relationship
             metadata := meta, order := i }
  | _, _ => none

/-- Modelled from the spec: the per-document procedure of
`GraphMaker.from_documents` (library code not in the repository). The model
call and parse are abstracted as a `client : Document → ExtractOutcome`. A
transport error is caught and recorded (zero edges); a parse failure yields
zero edges; on success each triple is repaired or dropped and becomes an
edge carrying the document's metadata and its 0-based triple position. -/
def processDocument (onto : Ontology) (client : Document → ExtractOutcome)
    (d : Document) : List Edge :=
  match client d with
  | .transportError => []
  | .parseError => []
  | .triples ts => ts.enum.filterMap fun p => mkEdge onto d.metadata p.1 p.2

/-- Modelled from the spec: `GraphMaker.from_documents` over a batch
(library code not in the repository) — documents are processed strictly in
order and their edge lists accumulated. -/
def from_documents (onto : Ontology) (client : Document → ExtractOutcome) :
    List Document → List Edge
  | [] => []
  | d :: ds => processDocument onto client d ++ from_documents onto client ds

/-- Modelled from the spec: the documents whose model call or parse failed,
as recorded while processing a batch. -/
def failureLog (client : Document → ExtractOutcome) (docs : List Document) :
    List Document :=
  docs.filter fun d =>
    match client d with
    | .transportError => true
    | .parseError => true
    | .triples _ => false

/-- Modelled from the spec: `from_documents` instrumented with its side
effects — the result also counts model calls made and total delay slept
(one inter-document pause of `delay` when another document follows). -/
def from_documents_trace (onto : Ontology)
    (client : Document → ExtractOutcome) (delay : Nat) :
    List Document → List Edge × Nat × Nat
  | [] => ([], 0, 0)
  | d :: ds =>
      let rest := from_documents_trace onto client delay ds
      (processDocument onto client d ++ rest.1, rest.2.1 + 1,
        rest.2.2 + if ds.isEmpty then 0 else delay)

/-- The natural identity of a node in the graph database: (name, label). -/
def nodeKey (n : Node) : String × String := (n.name, n.label)

/-- Modelled from the spec: upsert of one node into the database's node set
(Neo4j persistence, library code not in the repository) — insert only when
no node with the same (name, label) key exists. -/
def upsertNode (db : List Node) (n : Node) : List Node :=
  if db.any fun m => nodeKey m = nodeKey n then db else db ++ [n]

/-- The two endpoint nodes of an edge. -/
def edgeNodes (e : Edge) : List Node := [e.node_1, e.node_2]

/-- The Neo4j persistence adapter's configuration, mirroring
`Neo4jGraphModel(edges=graph, create_indices=create_indices)`. -/
structure Neo4jGraphModel where
  edges : List Edge
  create_indices : Bool

/-- Modelled from the spec: the node-set effect of `Neo4jGraphModel.save`
(library code not in the repository) — every endpoint node of every edge is
upserted into the database keyed by (name, label). -/
def Neo4jGraphModel.saveNodes (g : Neo4jGraphModel) (db : List Node) :
    List Node :=
  (g.edges.flatMap edgeNodes).foldl upsertNode db

/-- A concrete ontology for evaluation, after the spec's example scenario. -/
def exOntology : Ontology :=
  { labels := [.plain "Person", .plain "Place",
      .described "Miscellaneous" "fallback"]
    relationships := ["Relation between any pair of Entities"] }

/-- A concrete parsed triple for evaluation. -/
def exTriple : Triple :=
  { node_1 := { name := "Frodo", label := "Person" }
    relationship := "traveled to"
    node_2 := { name := "Rivendell", label := "Place" } }

/-- A concrete document for evaluation. -/
def exDoc : Document :=
  { text := "Frodo traveled to Rivendell."
    metadata := [("summary", "s"), ("generated_at", "t")] }

/-- A second concrete document whose model call is made to fail. -/
def exBad : Document := { text := "bad", metadata := [] }

/-- A concrete client: succeeds with one triple on every document. -/
def exClient : Document → ExtractOutcome := fun _ => .triples [exTriple]

/-- A concrete client raising a transport error on `exBad` only. -/
def exClientTransport : Document → ExtractOutcome := fun d =>
  if d.text = "bad" then .transportError else .triples [exTriple]

/-- A concrete client whose response fails to parse on `exBad` only. -/
def exClientParse : Document → ExtractOutcome := fun d =>
  if d.text = "bad" then .parseError else .triples [exTriple]

/-- The edge `exClient` yields from `exDoc` under `exOntology`. -/
def exEdge : Edge :=
  { node_1 := { name := "Frodo", label := "Person" }
    node_2 := { name := "Rivendell", label := "Place" }
    relationship := "traveled to"
    metadata := [("summary", "s"), ("generated_at", "t")]
    order := 0 }

end GraphMakerPy

namespace GraphMakerPy

/-- Edges of a batch decompose into the per-document edge lists. -/
theorem mem_from_documents {onto : Ontology}
    {client : Document → ExtractOutcome} {docs : List Document} {e : Edge}
    (he : e ∈ from_documents onto client docs) :
    ∃ d ∈ docs, e ∈ processDocument onto client d := by
  induction docs with
  | nil => simp [from_documents] at he
  | cons d ds ih =>
    simp only [from_documents, List.mem_append] at he
    rcases he with he | he
    · exact ⟨d, List.mem_cons_self d ds, he⟩
    · obtain ⟨d', hd', he'⟩ := ih he
      exact ⟨d', List.mem_cons_of_mem d hd', he'⟩

/-- A repaired label is always one of the ontology's declared names. -/
theorem repairLabel_mem {onto : Ontology} {lbl l : String}
    (h : repairLabel onto lbl = some l) : l ∈ onto.labelNames := by
  unfold repairLabel at h
  split at h
  · cases h; assumption
  · split at h
    · cases h; assumption
    · cases h

/-- An edge built by `mkEdge` records its triple position as `order`. -/
theorem mkEdge_order {onto : Ontology} {meta : Metadata} {i : Nat}
    {t : Triple} {e : Edge} (h : mkEdge onto meta i t = some e) :
    e.order = i := by
  unfold mkEdge at h
  split at h
  · cases h; rfl
  · cases h

/-- A batch splits across list concatenation of the documents. -/
theorem from_documents_append (onto : Ontology)
    (client : Document → ExtractOutcome) (xs ys : List Document) :
    from_documents onto client (xs ++ ys) =
      from_documents onto client xs ++ from_documents onto client ys := by
  induction xs with
  | nil => simp [from_documents]
  | cons d ds ih => simp [from_documents, ih]

/-- A repaired node's label is a declared ontology label name. -/
theorem repairNode_label_mem {onto : Ontology} {rn : RawNode} {n : Node}
    (h : repairNode onto rn = some n) : n.label ∈ onto.labelNames := by
  unfold repairNode at h
  rcases Option.map_eq_some'.mp h with ⟨l, hl, hn⟩
  subst hn
  exact repairLabel_mem hl

/-- Both node labels of an edge built by `mkEdge` are declared labels. -/
theorem mkEdge_labels {onto : Ontology} {meta : Metadata} {i : Nat}
    {t : Triple} {e : Edge} (h : mkEdge onto meta i t = some e) :
    e.node_1.label ∈ onto.labelNames ∧ e.node_2.label ∈ onto.labelNames := by
  unfold mkEdge at h
  split at h
  next h1 h2 =>
    cases h
    exact ⟨repairNode_label_mem h1, repairNode_label_mem h2⟩
  next => cases h

/-- The metadata of an edge built by `mkEdge` is the metadata passed in. -/
theorem mkEdge_metadata {onto : Ontology} {meta : Metadata} {i : Nat}
    {t : Triple} {e : Edge} (h : mkEdge onto meta i t = some e) :
    e.metadata = meta := by
  unfold mkEdge at h
  split at h
  · cases h; rfl
  · cases h

/-- Processing a document that fails with a transport error yields no
edges. -/
theorem processDocument_transport {onto : Ontology}
    {client : Document → ExtractOutcome} {d : Document}
    (h : client d = .transportError) :
    processDocument onto client d = [] := by
  unfold processDocument
  rw [h]

/-- Processing a document whose response fails to parse yields no edges. -/
theorem processDocument_parse {onto : Ontology}
    {client : Document → ExtractOutcome} {d : Document}
    (h : client d = .parseError) :
    processDocument onto client d = [] := by
  unfold processDocument
  rw [h]

/-- Upserting keeps every node already in the database. -/
theorem mem_upsertNode {db : List Node} {m : Node} (n : Node) (h : m ∈ db) :
    m ∈ upsertNode db n := by
  unfold upsertNode
  split
  · exact h
  · exact List.mem_append_left _ h

/-- After upserting `n`, some node with `n`'s key is in the database. -/
theorem upsertNode_covers (db : List Node) (n : Node) :
    ∃ m ∈ upsertNode db n, nodeKey m = nodeKey n := by
  unfold upsertNode
  split
  next h =>
    obtain ⟨m, hm, hk⟩ := List.any_eq_true.mp h
    exact ⟨m, hm, of_decide_eq_true hk⟩
  next => exact ⟨n, List.mem_append_right _ (List.mem_singleton.mpr rfl), rfl⟩

/-- Folding upserts keeps every node already in the database. -/
theorem mem_foldl_upsertNode {m : Node} {ns : List Node} {db : List Node}
    (h : m ∈ db) : m ∈ ns.foldl upsertNode db := by
  induction ns generalizing db with
  | nil => exact h
  | cons n ns ih => exact ih (mem_upsertNode n h)

/-- After folding upserts of `ns`, every key of `ns` is covered. -/
theorem foldl_upsertNode_covers {n : Node} {ns : List Node} (db : List Node)
    (h : n ∈ ns) : ∃ m ∈ ns.foldl upsertNode db, nodeKey m = nodeKey n := by
  induction ns generalizing db with
  | nil => cases h
  | cons x xs ih =>
    rw [List.foldl_cons]
    rcases List.mem_cons.mp h with rfl | h'
    · obtain ⟨m, hm, hk⟩ := upsertNode_covers db n
      exact ⟨m, mem_foldl_upsertNode hm, hk⟩
    · exact ih (upsertNode db x) h'

/-- Upserting nodes whose keys are all already covered changes nothing. -/
theorem foldl_upsertNode_fixed : ∀ (ns : List Node) (db : List Node),
    (∀ n ∈ ns, ∃ m ∈ db, nodeKey m = nodeKey n) →
    ns.foldl upsertNode db = db := by
  intro ns
  induction ns with
  | nil => intro db _; rfl
  | cons x xs ih =>
    intro db h
    have hx : upsertNode db x = db := by
      unfold upsertNode
      rw [if_pos]
      obtain ⟨m, hm, hk⟩ := h x (List.mem_cons_self x xs)
      exact List.any_eq_true.mpr ⟨m, hm, decide_eq_true hk⟩
    rw [List.foldl_cons, hx]
    exact ih db fun n hn => h n (List.mem_cons_of_mem x hn)

end GraphMakerPy

namespace GraphMakerPy

/-- C1: if the language-model call raises any exception during summary
generation, `generate_summary` returns the empty string (and, being a total
function of the call's outcome, propagates nothing); if the call succeeds,
it returns the generated text unchanged. -/
theorem generate_summary_suppresses_errors (llm : String → GenResult)
    (text : String) :
    (∀ e, llm text = .error e → generate_summary llm text = "") ∧
    (∀ s, llm text = .ok s → generate_summary llm text = s) := by
  constructor
  · intro e he
    simp [generate_summary, he]
  · intro s hs
    simp [generate_summary, hs]

/-- Witness for C1: a client that fails yields `""`; one that succeeds
yields its response. -/
theorem generate_summary_suppresses_errors_witness :
    generate_summary (fun _ => .error "quota") "frodo" = "" ∧
    generate_summary (fun _ => .ok "a hobbit") "frodo" = "a hobbit" :=
  ⟨(generate_summary_suppresses_errors (fun _ => .error "quota") "frodo").1
      "quota" rfl,
   (generate_summary_suppresses_errors (fun _ => .ok "a hobbit") "frodo").2
      "a hobbit" rfl⟩

/-- C10: every document built by the script carries the single run timestamp
as its `generated_at` metadata value, so any two documents of a run agree on
it. -/
theorem docs_share_generated_at (summarize : String → String)
    (current_time : String) (texts : List String) :
    (∀ d ∈ mkDocs summarize current_time texts,
      d.metadata.lookup "generated_at" = some current_time) ∧
    (∀ d1 ∈ mkDocs summarize current_time texts,
      ∀ d2 ∈ mkDocs summarize current_time texts,
        d1.metadata.lookup "generated_at" = d2.metadata.lookup "generated_at") := by
  constructor
  · intro d hd
    simp only [mkDocs, List.mem_map] at hd
    obtain ⟨t, _, rfl⟩ := hd
    simp [List.lookup]
  · intro d1 h1 d2 h2
    simp only [mkDocs, List.mem_map] at h1 h2
    obtain ⟨t1, _, rfl⟩ := h1
    obtain ⟨t2, _, rfl⟩ := h2
    simp [List.lookup]

/-- Witness for C10: on a concrete two-text run both documents report the
same timestamp. -/
theorem docs_share_generated_at_witness :
    (∀ d ∈ mkDocs (fun t => t) "2024-05-01" ["a", "b"],
      d.metadata.lookup "generated_at" = some "2024-05-01") :=
  (docs_share_generated_at (fun t => t) "2024-05-01" ["a", "b"]).1

/-- C2: every edge produced from a document carries that document's
metadata (the per-document slices of `from_documents` are exactly
`processDocument`); hence any edge of a batch carries the metadata of some
input document, and all edges from one document agree on metadata. -/
theorem edge_metadata_propagation (onto : Ontology)
    (client : Document → ExtractOutcome) (docs : List Document) :
    (∀ d e, e ∈ processDocument onto client d → e.metadata = d.metadata) ∧
    (∀ e ∈ from_documents onto client docs,
      ∃ d ∈ docs, e.metadata = d.metadata) ∧
    (∀ d e1 e2, e1 ∈ processDocument onto client d →
      e2 ∈ processDocument onto client d → e1.metadata = e2.metadata) := by
  have h1 : ∀ d e, e ∈ processDocument onto client d →
      e.metadata = d.metadata := by
    intro d e he
    unfold processDocument at he
    split at he
    · cases he
    · cases he
    · obtain ⟨p, _, hp⟩ := List.mem_filterMap.mp he
      exact mkEdge_metadata hp
  refine ⟨h1, ?_, ?_⟩
  · intro e he
    obtain ⟨d, hd, he'⟩ := mem_from_documents he
    exact ⟨d, hd, h1 d e he'⟩
  · intro d e1 e2 h1' h2'
    exact (h1 d e1 h1').trans (h1 d e2 h2').symm

/-- Witness for C2: the edge extracted from the concrete document carries
its metadata. -/
theorem edge_metadata_propagation_witness :
    exEdge.metadata = exDoc.metadata :=
  (edge_metadata_propagation exOntology exClient [exDoc]).1 exDoc exEdge
    (by decide)

/-- C3: a batch's output is the concatenation of the per-document edge
lists in document order (each in its in-document order), and its length is
the sum of the per-document edge counts. -/
theorem from_documents_ordered_concat (onto : Ontology)
    (client : Document → ExtractOutcome) (docs : List Document) :
    from_documents onto client docs =
      (docs.map (processDocument onto client)).flatten ∧
    (from_documents onto client docs).length =
      (docs.map fun d => (processDocument onto client d).length).sum := by
  constructor
  · induction docs with
    | nil => rfl
    | cons d ds ih => simp [from_documents, ih]
  · induction docs with
    | nil => rfl
    | cons d ds ih => simp [from_documents, ih]

/-- C4: every edge of a batch has both node labels inside the ontology's
declared label set; a node label outside the ontology is repaired to
"Miscellaneous" when that label is declared, and otherwise the node (hence
its triple, via `mkEdge`) is dropped. -/
theorem edge_labels_within_ontology (onto : Ontology)
    (client : Document → ExtractOutcome) (docs : List Document) :
    (∀ e ∈ from_documents onto client docs,
      e.node_1.label ∈ onto.labelNames ∧
        e.node_2.label ∈ onto.labelNames) ∧
    (∀ rn : RawNode, rn.label ∉ onto.labelNames →
      repairNode onto rn =
        if "Miscellaneous" ∈ onto.labelNames
        then some { name := rn.name, label := "Miscellaneous" }
        else none) ∧
    (∀ (meta : Metadata) (i : Nat) (t : Triple),
      repairNode onto t.node_1 = none ∨ repairNode onto t.node_2 = none →
      mkEdge onto meta i t = none) := by
  refine ⟨?_, ?_, ?_⟩
  · intro e he
    obtain ⟨d, _, he'⟩ := mem_from_documents he
    unfold processDocument at he'
    split at he'
    · cases he'
    · cases he'
    · obtain ⟨p, _, hp⟩ := List.mem_filterMap.mp he'
      exact mkEdge_labels hp
  · intro rn hrn
    unfold repairNode repairLabel
    rw [if_neg hrn]
    by_cases hm : "Miscellaneous" ∈ onto.labelNames <;> simp [hm]
  · intro meta i t h
    unfold mkEdge
    split
    next h1 h2 => rcases h with h | h <;> simp_all
    next => rfl

/-- Witness for C4: the concrete edge's labels are declared, and an
undeclared label "Artifact" is repaired to "Miscellaneous" (declared in
the concrete ontology). -/
theorem edge_labels_within_ontology_witness :
    (exEdge.node_1.label ∈ exOntology.labelNames ∧
      exEdge.node_2.label ∈ exOntology.labelNames) ∧
    repairNode exOntology { name := "Ring", label := "Artifact" } =
      (if "Miscellaneous" ∈ exOntology.labelNames
       then some { name := "Ring", label := "Miscellaneous" }
       else none) :=
  ⟨(edge_labels_within_ontology exOntology exClient [exDoc]).1 exEdge
      (by decide),
   (edge_labels_within_ontology exOntology exClient [exDoc]).2.1
      { name := "Ring", label := "Artifact" } (by decide)⟩

/-- C5: a transport error on one document's model call is isolated — the
batch result is exactly the edges of the documents before and after it,
with no error propagated (`from_documents` is total). -/
theorem transport_error_isolation (onto : Ontology)
    (client : Document → ExtractOutcome) (pre post : List Document)
    (d : Document) (h : client d = .transportError) :
    from_documents onto client (pre ++ d :: post) =
      from_documents onto client pre ++ from_documents onto client post := by
  rw [from_documents_append]
  simp [from_documents, processDocument_transport h]

/-- Witness for C5: with a client that fails on the middle document, the
remaining two documents still produce their single edge each. -/
theorem transport_error_isolation_witness :
    (from_documents exOntology exClientTransport
        ([exDoc] ++ exBad :: [exDoc]) =
      from_documents exOntology exClientTransport [exDoc] ++
        from_documents exOntology exClientTransport [exDoc]) ∧
    from_documents exOntology exClientTransport [exDoc] = [exEdge] :=
  ⟨transport_error_isolation exOntology exClientTransport [exDoc] [exDoc]
      exBad (by decide),
   by decide⟩

/-- C6: a parse failure yields zero edges for that document, the failure is
recorded in the batch failure log, and the rest of the batch is processed
normally with nothing raised (`from_documents` is total). -/
theorem parse_failure_zero_edges (onto : Ontology)
    (client : Document → ExtractOutcome) (pre post : List Document)
    (d : Document) (h : client d = .parseError) :
    processDocument onto client d = [] ∧
    d ∈ failureLog client (pre ++ d :: post) ∧
    from_documents onto client (pre ++ d :: post) =
      from_documents onto client pre ++ from_documents onto client post := by
  refine ⟨processDocument_parse h, ?_, ?_⟩
  · unfold failureLog
    rw [List.mem_filter]
    exact ⟨by simp, by rw [h]⟩
  · rw [from_documents_append]
    simp [from_documents, processDocument_parse h]

/-- Witness for C6: with a client whose response fails to parse on the
middle document, that document yields no edges, is logged, and the batch
equals the other documents' edges. -/
theorem parse_failure_zero_edges_witness :
    processDocument exOntology exClientParse exBad = [] ∧
    exBad ∈ failureLog exClientParse ([exDoc] ++ exBad :: [exDoc]) ∧
    from_documents exOntology exClientParse ([exDoc] ++ exBad :: [exDoc]) =
      from_documents exOntology exClientParse [exDoc] ++
        from_documents exOntology exClientParse [exDoc] :=
  parse_failure_zero_edges exOntology exClientParse [exDoc] [exDoc] exBad
    (by decide)

/-- C7: each produced edge's `order` field is its 0-based position in the
document's parsed triple list — the triple at index `order` is exactly the
one the edge was built from. -/
theorem edge_order_is_triple_position (onto : Ontology)
    (client : Document → ExtractOutcome) (d : Document) (ts : List Triple)
    (hts : client d = .triples ts) :
    ∀ e ∈ processDocument onto client d,
      ∃ t, ts[e.order]? = some t ∧
        mkEdge onto d.metadata e.order t = some e := by
  intro e he
  unfold processDocument at he
  rw [hts] at he
  obtain ⟨p, hpmem, hp⟩ := List.mem_filterMap.mp he
  have hord : e.order = p.1 := mkEdge_order hp
  have hget : ts[p.1]? = some p.2 := List.mem_enum_iff_getElem?.mp hpmem
  exact ⟨p.2, by rw [hord]; exact hget, by rw [hord]; exact hp⟩

/-- Witness for C7: the concrete edge has order 0 and is built from the
triple at position 0 of the parsed list. -/
theorem edge_order_is_triple_position_witness :
    [exTriple][exEdge.order]? = some exTriple ∧
      mkEdge exOntology exDoc.metadata exEdge.order exTriple =
        some exEdge := by
  obtain ⟨t, h1, h2⟩ :=
    edge_order_is_triple_position exOntology exClient exDoc [exTriple]
      (by decide) exEdge (by decide)
  have h0 : [exTriple][exEdge.order]? = some exTriple := by decide
  have ht : t = exTriple := Option.some.inj (h1.symm.trans h0)
  subst ht
  exact ⟨h1, h2⟩

/-- C8: the empty batch produces no edges, makes no model calls and sleeps
no delay; the instrumented batch agrees with `from_documents` on edges. -/
theorem from_documents_empty_no_effects (onto : Ontology)
    (client : Document → ExtractOutcome) (delay : Nat)
    (docs : List Document) :
    from_documents_trace onto client delay [] = ([], 0, 0) ∧
    (from_documents_trace onto client delay docs).1 =
      from_documents onto client docs := by
  refine ⟨rfl, ?_⟩
  induction docs with
  | nil => rfl
  | cons d ds ih => simp [from_documents_trace, from_documents, ih]

/-- C9: saving the same edge sequence twice leaves the node set unchanged —
nodes are upserted keyed by (name, label), so the second save inserts
nothing new. -/
theorem save_idempotent_nodes (g : Neo4jGraphModel) (db : List Node) :
    g.saveNodes (g.saveNodes db) = g.saveNodes db := by
  unfold Neo4jGraphModel.saveNodes
  apply foldl_upsertNode_fixed
  intro n hn
  exact foldl_upsertNode_covers db hn

end GraphMakerPy
